import Mathlib

/-!
Verification of the image-publish engine of the wercker CI runner
(`docker/docker.go`, `core/ocistore.go`) against its natural-language
specification.  Strings are embedded as lists of characters (`Str`) so that
the Go string operations (`strings.ToLower`, `strings.TrimSpace`,
`strings.HasPrefix`, slicing) become plain list functions.
-/

namespace Wercker

/-- Strings of the Go source, embedded as lists of characters. -/
abbrev Str := List Char

/-- Conversion from a Lean string literal to the embedded string type. -/
def str (s : String) : Str := s.data

/-- Model of Go `strings.TrimSpace` (whitespace trimmed from both ends).
Go trims the full Unicode white-space class; the model uses the ASCII
white-space characters recognised by `Char.isWhitespace`, which covers every
character appearing in the status protocol. -/
def trimSpace (s : Str) : Str :=
  ((s.dropWhile Char.isWhitespace).reverse.dropWhile Char.isWhitespace).reverse

/-- Lower-casing of one character, modelling Go `strings.ToLower` on the
ASCII range used by docker repository names. -/
def lowerChar (c : Char) : Char :=
  if 'A' ≤ c ∧ c ≤ 'Z' then Char.ofNat (c.toNat + 32) else c

/-- Model of Go `strings.ToLower` (`docker.go` line 742 applies it to the
repository). -/
def toLowerStr (s : Str) : Str := s.map lowerChar

/- ### Push status protocol (docker.go lines 63-91) -/

/-- The `aux` component of a push status message (`PushStatusAux`). -/
structure PushStatusAux where
  tag : Str
  digest : Str
  size : Int
deriving DecidableEq

/-- The `progressDetail` component of a push status message. -/
structure PushStatusProgressDetail where
  current : Int
  total : Int
deriving DecidableEq

/-- The `errorDetail` component of a push status message. -/
structure PushStatusErrorDetail where
  message : Str
  code : Str
deriving DecidableEq

/-- One status message decoded from the push stream (`PushStatus`).
Optional JSON components become `Option`; absent strings decode to `""`,
embedded as `[]`. -/
structure PushStatus where
  status : Str
  id : Str
  progress : Str
  error : Str
  aux : Option PushStatusAux
  progressDetail : Option PushStatusProgressDetail
  errorDetail : Option PushStatusErrorDetail
deriving DecidableEq

/-- The constant `NoPushConfirmationInStatus` (docker.go line 54). -/
def NoPushConfirmationInStatus : Str :=
  str "Docker push failed to complete. Please check logs for any error condition.."

/-- The fatal-record test of the status loop:
`len(strings.TrimSpace(statusMessage.Error)) != 0` (docker.go line 944). -/
def isErrorRecord (m : PushStatus) : Bool :=
  (trimSpace m.error).length ≠ 0

/-- The error message surfaced for a fatal record (docker.go lines 945-948):
built from the structured `errorDetail` when present, the raw error text
otherwise. -/
def errorMessageToDisplay (m : PushStatus) : Str :=
  match m.errorDetail with
  | some d => str "Code: " ++ d.code ++ str ", Message: " ++ d.message
  | none => m.error

/-- The aux-confirmation test of the status loop:
`statusMessage.Aux != nil && statusMessage.Aux.Tag == tag`
(docker.go line 952). -/
def auxConfirms (tag : Str) (m : PushStatus) : Bool :=
  match m.aux with
  | some a => a.tag == tag
  | none => false

/-- Verdict of the status-message loop for one tag, mirroring the three ways
the loop of docker.go lines 942-963 can leave the per-tag body: the explicit
protocol-error return (line 950), the missing-confirmation return (line 962),
and falling through to the next tag. -/
inductive TagPushVerdict where
  | protocolError (msg : Str)
  | noConfirmation
  | confirmed
deriving DecidableEq

/-- The status-message loop of docker.go lines 942-959, with `pushed` the
running value of `isContainerPushed`: a record with a non-empty (trimmed)
error field returns immediately; otherwise a matching aux record marks the
tag as pushed and scanning continues. -/
def classifyPushStatusAux (tag : Str) (pushed : Bool) : List PushStatus → TagPushVerdict
  | [] => if pushed then .confirmed else .noConfirmation
  | m :: rest =>
    if isErrorRecord m then .protocolError (errorMessageToDisplay m)
    else classifyPushStatusAux tag (pushed || auxConfirms tag m) rest

/-- Classification of one tag's decoded status stream (docker.go lines
942-963, starting from `isContainerPushed := false`). -/
def classifyPushStatus (tag : Str) (msgs : List PushStatus) : TagPushVerdict :=
  classifyPushStatusAux tag false msgs

/- ### Tag policy (docker.go lines 878-886) -/

/-- `DockerPushStep.buildTags` (docker.go lines 878-886): explicit tags are
returned verbatim; with none configured the default is `latest`, plus the
`branch-commit` tag when the built-in registry is in use. -/
def buildTags (tags : List Str) (builtInPush : Bool) (gitBranch gitCommit : Str) : List Str :=
  if tags.length = 0 ∧ builtInPush = false then
    [str "latest"]
  else if tags.length = 0 ∧ builtInPush = true then
    [str "latest", gitBranch ++ str "-" ++ gitCommit]
  else
    tags

/- ### Helper lemmas about the status loop -/

theorem classifyPushStatusAux_error_free (tag : Str) (msgs : List PushStatus) :
    ∀ pushed : Bool, (∀ m ∈ msgs, isErrorRecord m = false) →
      classifyPushStatusAux tag pushed msgs =
        if pushed || msgs.any (auxConfirms tag) then .confirmed else .noConfirmation := by
  induction msgs with
  | nil => intro pushed _; simp [classifyPushStatusAux]
  | cons m rest ih =>
    intro pushed h
    have hm : isErrorRecord m = false := h m (List.mem_cons_self m rest)
    have hrest : ∀ x ∈ rest, isErrorRecord x = false := fun x hx => h x (List.mem_cons_of_mem m hx)
    simp only [classifyPushStatusAux, hm, Bool.false_eq_true, if_false]
    rw [ih (pushed || auxConfirms tag m) hrest]
    simp [List.any_cons, Bool.or_assoc]

theorem classifyPushStatusAux_first_error (tag : Str) (pre : List PushStatus)
    (m₁ : PushStatus) (post : List PushStatus) :
    ∀ pushed : Bool, (∀ m ∈ pre, isErrorRecord m = false) → isErrorRecord m₁ = true →
      classifyPushStatusAux tag pushed (pre ++ m₁ :: post) =
        .protocolError (errorMessageToDisplay m₁) := by
  induction pre with
  | nil => intro pushed _ h₁; simp [classifyPushStatusAux, h₁]
  | cons m rest ih =>
    intro pushed h h₁
    have hm : isErrorRecord m = false := h m (List.mem_cons_self m rest)
    have hrest : ∀ x ∈ rest, isErrorRecord x = false := fun x hx => h x (List.mem_cons_of_mem m hx)
    simp only [List.cons_append, classifyPushStatusAux, hm, Bool.false_eq_true, if_false]
    exact ih (pushed || auxConfirms tag m) hrest h₁

/-- C1: for the decoded status records of one tag's push stream, the first
record with a non-empty error field yields a single protocol error whose
message is built from the structured errorDetail when present and is the raw
error text otherwise; with no error record the tag is confirmed iff some
record's aux block carries the pushed tag; and with neither an error record
nor a matching aux record the verdict is the distinct no-confirmation
outcome, not a protocol error. -/
theorem pushStatus_classification (tag : Str) (msgs : List PushStatus) :
    (∀ pre m₁ post, msgs = pre ++ m₁ :: post →
        (∀ m ∈ pre, isErrorRecord m = false) → isErrorRecord m₁ = true →
        classifyPushStatus tag msgs =
          .protocolError (match m₁.errorDetail with
            | some d => str "Code: " ++ d.code ++ str ", Message: " ++ d.message
            | none => m₁.error))
  ∧ ((∀ m ∈ msgs, isErrorRecord m = false) →
        (classifyPushStatus tag msgs = .confirmed ↔ ∃ m ∈ msgs, auxConfirms tag m = true))
  ∧ ((∀ m ∈ msgs, isErrorRecord m = false) → (∀ m ∈ msgs, auxConfirms tag m = false) →
        classifyPushStatus tag msgs = .noConfirmation) := by
  refine ⟨?_, ?_, ?_⟩
  · intro pre m₁ post hdecomp hpre h₁
    rw [hdecomp]
    exact classifyPushStatusAux_first_error tag pre m₁ post false hpre h₁
  · intro h
    rw [classifyPushStatus, classifyPushStatusAux_error_free tag msgs false h]
    simp [List.any_eq_true]
  · intro h hnone
    rw [classifyPushStatus, classifyPushStatusAux_error_free tag msgs false h]
    have : msgs.any (auxConfirms tag) = false := by
      rw [List.any_eq_false]
      intro m hm
      simp [hnone m hm]
    simp [this]

/-- Concrete status records exercising the three outcomes of the classifier. -/
def statusErrRecord : PushStatus :=
  ⟨str "pushing", [], [], str "denied", none, none,
    some ⟨str "unauthorized", str "401"⟩⟩

/-- A plain progress record with no error and no aux block. -/
def statusPlainRecord : PushStatus :=
  ⟨str "pushing", str "abc", [], [], none, none, none⟩

/-- A record whose aux block confirms the tag `latest`. -/
def statusAuxRecord : PushStatus :=
  ⟨[], [], [], [], some ⟨str "latest", str "sha256:0", 5⟩, none, none⟩

theorem pushStatus_classification_witness :
    classifyPushStatus (str "latest") [statusPlainRecord, statusErrRecord] =
      .protocolError (str "Code: 401, Message: unauthorized")
  ∧ classifyPushStatus (str "latest") [statusPlainRecord, statusAuxRecord] = .confirmed
  ∧ classifyPushStatus (str "latest") [statusPlainRecord] = .noConfirmation := by
  refine ⟨?_, ?_, ?_⟩
  · exact (pushStatus_classification (str "latest") [statusPlainRecord, statusErrRecord]).1
      [statusPlainRecord] statusErrRecord [] rfl (by decide) (by decide)
  · exact ((pushStatus_classification (str "latest") [statusPlainRecord, statusAuxRecord]).2.1
      (by decide)).mpr ⟨statusAuxRecord, by decide, by decide⟩
  · exact (pushStatus_classification (str "latest") [statusPlainRecord]).2.2
      (by decide) (by decide)

/-- C5: buildTags returns explicitly configured tags verbatim when at least
one is configured; with no explicit tags it returns exactly `latest` when
the built-in registry is not in use and exactly `latest` plus
`gitBranch-gitCommit` when it is. -/
theorem buildTags_policy (tags : List Str) (builtInPush : Bool) (gitBranch gitCommit : Str) :
    (tags ≠ [] → buildTags tags builtInPush gitBranch gitCommit = tags)
  ∧ buildTags [] false gitBranch gitCommit = [str "latest"]
  ∧ buildTags [] true gitBranch gitCommit =
      [str "latest", gitBranch ++ str "-" ++ gitCommit] := by
  refine ⟨?_, ?_, ?_⟩
  · intro h
    have hlen : tags.length ≠ 0 := by simpa using h
    simp [buildTags, hlen]
  · simp [buildTags]
  · simp [buildTags]

theorem buildTags_policy_witness :
    buildTags [str "v1", str "v1"] true (str "main") (str "abc123") = [str "v1", str "v1"]
  ∧ buildTags [] true (str "main") (str "abc123") = [str "latest", str "main-abc123"] := by
  refine ⟨?_, ?_⟩
  · exact (buildTags_policy [str "v1", str "v1"] true (str "main") (str "abc123")).1 (by decide)
  · have h := (buildTags_policy [] true (str "main") (str "abc123")).2.2
    rw [h]
    decide

/- ### Character and string lemmas -/

theorem char_toNat_ofNat (n : Nat) (h : n < 55296) : (Char.ofNat n).toNat = n := by
  unfold Char.ofNat
  rw [dif_pos (Or.inl h)]
  rfl

theorem lowerChar_lowerChar (c : Char) : lowerChar (lowerChar c) = lowerChar c := by
  by_cases h : 'A' ≤ c ∧ c ≤ 'Z'
  · have h65 : 65 ≤ c.toNat := h.1
    have h90 : c.toNat ≤ 90 := h.2
    have hlt : c.toNat + 32 < 55296 := by omega
    have hstep : lowerChar c = Char.ofNat (c.toNat + 32) := by rw [lowerChar, if_pos h]
    rw [hstep, lowerChar, if_neg]
    intro hcon
    have hle : (Char.ofNat (c.toNat + 32)).toNat ≤ 90 := hcon.2
    rw [char_toNat_ofNat _ hlt] at hle
    omega
  · have hstep : lowerChar c = c := by rw [lowerChar, if_neg h]
    rw [hstep]
    exact hstep

theorem toLowerStr_append (a b : Str) : toLowerStr (a ++ b) = toLowerStr a ++ toLowerStr b :=
  List.map_append lowerChar a b

theorem toLowerStr_toLowerStr (s : Str) : toLowerStr (toLowerStr s) = toLowerStr s := by
  unfold toLowerStr
  rw [List.map_map]
  exact List.map_congr_left fun c _ => lowerChar_lowerChar c

theorem mem_dropWhile_of_not (p : Char → Bool) (c : Char) :
    ∀ s : Str, c ∈ s → p c = false → c ∈ s.dropWhile p := by
  intro s
  induction s with
  | nil => intro h _; cases h
  | cons a t ih =>
    intro hmem hpc
    by_cases hpa : p a = true
    · rw [List.dropWhile_cons, if_pos hpa]
      rcases List.mem_cons.mp hmem with heq | ht
      · subst heq; rw [hpc] at hpa; cases hpa
      · exact ih ht hpc
    · rw [List.dropWhile_cons, if_neg hpa]
      exact hmem

theorem trimSpace_ne_nil (s : Str) (c : Char) (hc : c ∈ s) (hw : c.isWhitespace = false) :
    trimSpace s ≠ [] := by
  intro h
  rw [trimSpace, List.reverse_eq_nil_iff, List.dropWhile_eq_nil_iff] at h
  have hcdw : c ∈ s.dropWhile Char.isWhitespace := mem_dropWhile_of_not _ c s hc hw
  have := h c (List.mem_reverse.mpr hcdw)
  rw [this] at hw
  cases hw

/- ### Registry/repository resolver (docker.go lines 712-782) -/

/-- The two-character test of Go `strings.ContainsAny(s, ".:")` used by the
image-reference domain splitter. -/
def containsAnyDotColon (s : Str) : Bool := s.any (fun c => c == '.' || c == ':')

/-- Modelled from the spec: the domain-extraction half of the external
image-reference parser (`reference.ParseNormalizedNamed` followed by
`reference.Domain`, docker.go lines 744-745), which is not part of this
repository.  Per the spec the repository is parsed as `[domain/]path[:tag]`
using the standard image-reference grammar: the part before the first slash
is the domain when it contains a dot or a colon or is `localhost`; the
public-hub sentinel `docker.io` is returned otherwise, and the legacy hub
domain `index.docker.io` is normalised to `docker.io`. -/
def dockerDomain (name : Str) : Str :=
  let i := name.takeWhile (· != '/')
  if i.length = name.length ∨ (containsAnyDotColon i = false ∧ i ≠ str "localhost") then
    str "docker.io"
  else if i = str "index.docker.io" then str "docker.io"
  else i

theorem trimSpace_dockerDomain_ne_nil (name : Str) :
    trimSpace (dockerDomain name) ≠ [] := by
  unfold dockerDomain
  set i := name.takeWhile (· != '/') with hi
  by_cases h1 : i.length = name.length ∨ (containsAnyDotColon i = false ∧ i ≠ str "localhost")
  · rw [if_pos h1]; decide
  · rw [if_neg h1]
    by_cases h2 : i = str "index.docker.io"
    · rw [if_pos h2]; decide
    · rw [if_neg h2]
      rw [not_or] at h1
      rcases not_and_or.mp h1.2 with h3 | h3
      · have h4 : containsAnyDotColon i = true := by
          cases hh : containsAnyDotColon i
          · exact absurd hh h3
          · rfl
        obtain ⟨c, hc, hcp⟩ := List.any_eq_true.mp h4
        have hcw : c.isWhitespace = false := by
          rcases Bool.or_eq_true .. |>.mp hcp with h5 | h5
          · rw [beq_iff_eq] at h5; subst h5; decide
          · rw [beq_iff_eq] at h5; subst h5; decide
        exact trimSpace_ne_nil i c hc hcw
      · have h4 : i = str "localhost" := not_not.mp h3
        rw [h4]; decide

/-- Scheme characters accepted by the URL parser after the first letter. -/
def isSchemeChar (c : Char) : Bool :=
  c.isAlpha || c.isDigit || c == '+' || c == '-' || c == '.'

/-- Modelled from the spec: the scheme scan of the external URL parser
(`url.Parse`, docker.go line 753), not part of this repository.  Returns the
scheme and the remainder, or `none` when the string starts with a colon
("missing protocol scheme"); a string that does not start with a letter, or
whose candidate scheme is not followed by a colon, has no scheme and is kept
whole. -/
def getScheme (s : Str) : Option (Str × Str) :=
  match s with
  | [] => some ([], [])
  | c :: _ =>
    if c == ':' then none
    else if c.isAlpha = false then some ([], s)
    else
      match s.dropWhile isSchemeChar with
      | ':' :: r => some (s.takeWhile isSchemeChar, r)
      | _ => some ([], s)

/-- The components of a parsed URL the resolver consumes. -/
structure GoURL where
  scheme : Str
  host : Str
  path : Str
deriving DecidableEq

/-- Suffix of `s` after the last occurrence of `c` (all of `s` when `c` is
absent). -/
def afterLast (c : Char) (s : Str) : Str := (s.reverse.takeWhile (· != c)).reverse

/-- Port validation of the URL parser's host: when a colon is present the
part after the last colon must be all digits. -/
def validOptionalPort (host : Str) : Bool :=
  if host.contains ':' then (afterLast ':' host).all Char.isDigit else true

/-- Modelled from the spec: the external URL parser (`url.Parse`,
docker.go line 753), not part of this repository.  Only the behaviour the
resolver consumes is modelled: success or failure, and the `Host` component
— the authority after a double slash, up to the next slash, userinfo
dropped, with a numeric-port requirement, and with letter case preserved.
Query and fragment splitting, bracketed IPv6 hosts and control-character
rejection are outside the model. -/
def urlParse (s : Str) : Option GoURL :=
  match getScheme s with
  | none => none
  | some (scheme, rest) =>
    if (str "//").isPrefixOf rest then
      let afterSlashes := rest.drop 2
      let authority := afterSlashes.takeWhile (· != '/')
      let host := afterLast '@' authority
      if validOptionalPort host then
        some ⟨scheme, host, afterSlashes.dropWhile (· != '/')⟩
      else none
    else some ⟨scheme, [], rest⟩

/-- The pipeline options consumed by the resolver: the built-in registry's
host and canonical URL and the application's owner and name. -/
structure PipelineOptions where
  wcrHost : Str
  wcrRegistry : Str
  applicationOwnerName : Str
  applicationName : Str
deriving DecidableEq

/-- The local `registryInferredFromRepository` of docker.go lines 746-750: a
registry URL `https://domain/v2/` derived from the repository's domain, or
the empty string when the domain is the public-hub sentinel. -/
def registryInferredFromRepository (inferredRepository : Str) : Str :=
  if dockerDomain inferredRepository ≠ str "docker.io" then
    str "https://" ++ dockerDomain inferredRepository ++ str "/v2" ++ str "/"
  else []

/-- The parsed-registry arm of the resolver (docker.go lines 764-777): with
a non-hub repository domain differing from the registry URL's host the
repository-derived registry wins; with no (or only the hub) repository
domain the registry URL's host is prefixed onto the repository; with
agreeing domains nothing changes. -/
def resolveWithParsedRegistry (repository registry : Str) (u : GoURL) : Str × Str :=
  if (trimSpace (dockerDomain (toLowerStr repository))).length ≠ 0 ∧
      dockerDomain (toLowerStr repository) ≠ str "docker.io" then
    if u.host ≠ dockerDomain (toLowerStr repository) then
      (toLowerStr repository, registryInferredFromRepository (toLowerStr repository))
    else (toLowerStr repository, registry)
  else (u.host ++ str "/" ++ toLowerStr repository, registry)

/-- `InferRegistryAndRepository` (docker.go lines 732-782).  An empty
repository yields the built-in registry's default owner/app path; otherwise
the repository is lower-cased and its domain extracted.  A blank registry is
inferred from that domain; a non-blank registry is parsed as a URL, an
unparsable one falls back to the repository-derived registry or fails, and a
parsed one is resolved by `resolveWithParsedRegistry`.  The error return
`("", "", err)` is embedded as `none`. -/
def InferRegistryAndRepository (repository registry : Str) (po : PipelineOptions) :
    Option (Str × Str) :=
  if repository = [] then
    some (po.wcrHost ++ str "/" ++ po.applicationOwnerName ++ str "/" ++ po.applicationName,
          po.wcrRegistry)
  else if (trimSpace registry).length ≠ 0 then
    match urlParse registry with
    | none =>
      if registryInferredFromRepository (toLowerStr repository) ≠ [] then
        some (toLowerStr repository, registryInferredFromRepository (toLowerStr repository))
      else none
    | some u => some (resolveWithParsedRegistry repository registry u)
  else some (toLowerStr repository, registryInferredFromRepository (toLowerStr repository))

/-- Sample pipeline options used by the concrete evaluations. -/
def samplePipelineOptions : PipelineOptions :=
  ⟨str "test.wcr.io", str "https://test.wcr.io/v2/", str "owner", str "app"⟩

theorem registryInferredFromRepository_eq (r : Str)
    (hd : dockerDomain r ≠ str "docker.io") :
    registryInferredFromRepository r = str "https://" ++ dockerDomain r ++ str "/v2/" := by
  rw [registryInferredFromRepository, if_pos hd, List.append_assoc]
  rfl

theorem registryInferredFromRepository_ne_nil (r : Str)
    (hd : dockerDomain r ≠ str "docker.io") :
    registryInferredFromRepository r ≠ [] := by
  rw [registryInferredFromRepository, if_pos hd]
  simp [str]

/-- C8: the resolver returns its error result exactly when a non-blank
explicit registry fails to parse as a URL and the (lower-cased, non-empty)
repository carries no domain to infer a registry from; every other input —
empty repository, blank registry, and every parseable-registry branch —
yields a repository/registry pair. -/
theorem InferRegistryAndRepository_error_iff (repository registry : Str)
    (po : PipelineOptions) :
    InferRegistryAndRepository repository registry po = none ↔
      repository ≠ [] ∧ (trimSpace registry).length ≠ 0 ∧ urlParse registry = none ∧
        dockerDomain (toLowerStr repository) = str "docker.io" := by
  unfold InferRegistryAndRepository
  by_cases hrepo : repository = []
  · simp [hrepo]
  · rw [if_neg hrepo]
    by_cases htrim : (trimSpace registry).length ≠ 0
    · rw [if_pos htrim]
      cases hp : urlParse registry with
      | none =>
        by_cases hd : dockerDomain (toLowerStr repository) = str "docker.io"
        · have hinf : registryInferredFromRepository (toLowerStr repository) = [] := by
            rw [registryInferredFromRepository, if_neg (by simpa using hd)]
          simp [hinf, hrepo, htrim, hd]
        · have hinf := registryInferredFromRepository_ne_nil (toLowerStr repository) hd
          simp [hinf, hrepo, htrim, hd]
      | some u => simp
    · rw [if_neg htrim]
      simp [htrim]

/-- C4: with a non-empty repository and a parseable non-blank registry: a
non-hub repository domain differing from the registry URL's host wins and
the registry becomes `https://domain/v2/`; a repository with no domain (or
only the public-hub sentinel) is prefixed with the registry URL's host; and
agreeing domains leave the (lower-cased) repository and the registry
unchanged. -/
theorem InferRegistryAndRepository_parseable (repository registry : Str)
    (po : PipelineOptions) (u : GoURL) (hrepo : repository ≠ [])
    (htrim : (trimSpace registry).length ≠ 0) (hu : urlParse registry = some u) :
    (dockerDomain (toLowerStr repository) ≠ str "docker.io" →
      u.host ≠ dockerDomain (toLowerStr repository) →
      InferRegistryAndRepository repository registry po =
        some (toLowerStr repository,
          str "https://" ++ dockerDomain (toLowerStr repository) ++ str "/v2/"))
  ∧ (dockerDomain (toLowerStr repository) = str "docker.io" →
      InferRegistryAndRepository repository registry po =
        some (u.host ++ str "/" ++ toLowerStr repository, registry))
  ∧ (dockerDomain (toLowerStr repository) ≠ str "docker.io" →
      u.host = dockerDomain (toLowerStr repository) →
      InferRegistryAndRepository repository registry po =
        some (toLowerStr repository, registry)) := by
  have hlen : (trimSpace (dockerDomain (toLowerStr repository))).length ≠ 0 := by
    intro h
    exact trimSpace_dockerDomain_ne_nil (toLowerStr repository) (List.length_eq_zero.mp h)
  have hbase : InferRegistryAndRepository repository registry po =
      some (resolveWithParsedRegistry repository registry u) := by
    rw [InferRegistryAndRepository, if_neg hrepo, if_pos htrim, hu]
  refine ⟨?_, ?_, ?_⟩
  · intro hd hh
    rw [hbase, resolveWithParsedRegistry, if_pos ⟨hlen, hd⟩, if_pos hh,
      registryInferredFromRepository_eq _ hd]
  · intro hd
    rw [hbase, resolveWithParsedRegistry, if_neg (by simp [hd])]
  · intro hd hh
    rw [hbase, resolveWithParsedRegistry, if_pos ⟨hlen, hd⟩, if_neg (by simpa using hh)]

theorem InferRegistryAndRepository_parseable_witness :
    InferRegistryAndRepository (str "quay.io/a/b") (str "https://wrong.example/v2/")
      samplePipelineOptions = some (str "quay.io/a/b", str "https://quay.io/v2/")
  ∧ InferRegistryAndRepository (str "a/b") (str "https://reg.example/v2/")
      samplePipelineOptions = some (str "reg.example/a/b", str "https://reg.example/v2/")
  ∧ InferRegistryAndRepository (str "quay.io/a/b") (str "https://quay.io/v2/")
      samplePipelineOptions = some (str "quay.io/a/b", str "https://quay.io/v2/") := by
  refine ⟨?_, ?_, ?_⟩
  · rw [(InferRegistryAndRepository_parseable (str "quay.io/a/b")
      (str "https://wrong.example/v2/") samplePipelineOptions
      ⟨str "https", str "wrong.example", str "/v2/"⟩
      (by decide) (by decide) (by decide)).1 (by decide) (by decide)]
    decide
  · rw [(InferRegistryAndRepository_parseable (str "a/b")
      (str "https://reg.example/v2/") samplePipelineOptions
      ⟨str "https", str "reg.example", str "/v2/"⟩
      (by decide) (by decide) (by decide)).2.1 (by decide)]
    decide
  · rw [(InferRegistryAndRepository_parseable (str "quay.io/a/b")
      (str "https://quay.io/v2/") samplePipelineOptions
      ⟨str "https", str "quay.io", str "/v2/"⟩
      (by decide) (by decide) (by decide)).2.2 (by decide) (by decide)]
    decide

/-- C2 counterexample: with the bare repository `a/b` and the parseable
registry `https://REG.example/v2/`, the resolver succeeds but returns the
repository `REG.example/a/b`, which is not equal to its own lower-casing —
the registry URL's host is prefixed verbatim, so the resolved repository is
not lower-case for every input case. -/
theorem InferRegistryAndRepository_lowercase_counterexample :
    InferRegistryAndRepository (str "a/b") (str "https://REG.example/v2/")
      samplePipelineOptions = some (str "REG.example/a/b", str "https://REG.example/v2/")
  ∧ toLowerStr (str "REG.example/a/b") ≠ str "REG.example/a/b" := by
  exact ⟨by decide, by decide⟩

/-- C2 amended: the resolver lower-cases the user-supplied repository, but
the empty-repository default path and a prefixed registry-URL host are taken
verbatim; hence whenever the pipeline options' host/owner/app components and
the parsed registry host are themselves lower-case, every successfully
resolved repository is entirely lower-case. -/
theorem InferRegistryAndRepository_lowercase_amended (repository registry : Str)
    (po : PipelineOptions) (r g : Str)
    (hhost : toLowerStr po.wcrHost = po.wcrHost)
    (howner : toLowerStr po.applicationOwnerName = po.applicationOwnerName)
    (happ : toLowerStr po.applicationName = po.applicationName)
    (hreg : ∀ u, urlParse registry = some u → toLowerStr u.host = u.host)
    (h : InferRegistryAndRepository repository registry po = some (r, g)) :
    toLowerStr r = r := by
  have hslash : toLowerStr (str "/") = str "/" := by decide
  unfold InferRegistryAndRepository at h
  by_cases hrepo : repository = []
  · rw [if_pos hrepo] at h
    simp only [Option.some.injEq, Prod.mk.injEq] at h
    obtain ⟨hr, -⟩ := h
    rw [← hr, toLowerStr_append, toLowerStr_append, toLowerStr_append,
      toLowerStr_append, hhost, howner, happ, hslash]
  · rw [if_neg hrepo] at h
    by_cases htrim : (trimSpace registry).length ≠ 0
    · rw [if_pos htrim] at h
      cases hp : urlParse registry with
      | none =>
        rw [hp] at h
        replace h : (if registryInferredFromRepository (toLowerStr repository) ≠ [] then
            some (toLowerStr repository, registryInferredFromRepository (toLowerStr repository))
          else none) = some (r, g) := h
        by_cases hinf : registryInferredFromRepository (toLowerStr repository) ≠ []
        · rw [if_pos hinf] at h
          simp only [Option.some.injEq, Prod.mk.injEq] at h
          obtain ⟨hr, -⟩ := h
          rw [← hr, toLowerStr_toLowerStr]
        · rw [if_neg hinf] at h
          cases h
      | some u =>
        rw [hp] at h
        replace h : some (resolveWithParsedRegistry repository registry u) = some (r, g) := h
        simp only [Option.some.injEq] at h
        have hhostu : toLowerStr u.host = u.host := hreg u hp
        rw [resolveWithParsedRegistry] at h
        by_cases hcond : (trimSpace (dockerDomain (toLowerStr repository))).length ≠ 0 ∧
            dockerDomain (toLowerStr repository) ≠ str "docker.io"
        · rw [if_pos hcond] at h
          by_cases hh : u.host ≠ dockerDomain (toLowerStr repository)
          · rw [if_pos hh] at h
            simp only [Prod.mk.injEq] at h
            obtain ⟨hr, -⟩ := h
            rw [← hr, toLowerStr_toLowerStr]
          · rw [if_neg hh] at h
            simp only [Prod.mk.injEq] at h
            obtain ⟨hr, -⟩ := h
            rw [← hr, toLowerStr_toLowerStr]
        · rw [if_neg hcond] at h
          simp only [Prod.mk.injEq] at h
          obtain ⟨hr, -⟩ := h
          rw [← hr, toLowerStr_append, toLowerStr_append, hhostu, hslash,
            toLowerStr_toLowerStr]
    · rw [if_neg htrim] at h
      simp only [Option.some.injEq, Prod.mk.injEq] at h
      obtain ⟨hr, -⟩ := h
      rw [← hr, toLowerStr_toLowerStr]

theorem InferRegistryAndRepository_lowercase_amended_witness :
    toLowerStr (str "reg.example/a/b") = str "reg.example/a/b" := by
  refine InferRegistryAndRepository_lowercase_amended (str "A/B")
    (str "https://reg.example/v2/") samplePipelineOptions
    (str "reg.example/a/b") (str "https://reg.example/v2/")
    (by decide) (by decide) (by decide) (fun u hu => ?_) (by decide)
  rw [show urlParse (str "https://reg.example/v2/") =
      some ⟨str "https", str "reg.example", str "/v2/"⟩ from by decide] at hu
  injection hu with h
  rw [← h]
  decide

/- ### Scratch layer builder (docker.go lines 192-229) -/

/-- A tar entry header: the entry name plus the remaining header fields,
which the copy loop never touches, abstracted as an opaque blob. -/
structure TarHeader where
  name : Str
  rest : Str
deriving DecidableEq

/-- A tar entry: header plus body bytes. -/
structure TarEntry where
  header : TarHeader
  body : List Nat
deriving DecidableEq

/-- Synthetic-root stripping of docker.go lines 214-218: a leading
`output/` or `source/` is removed from the entry name. -/
def stripName (n : Str) : Str :=
  if (str "output/").isPrefixOf n then n.drop 7
  else if (str "source/").isPrefixOf n then n.drop 7
  else n

/-- State of the `io.MultiWriter(layerFile, digester.Hash())` fan-out
(docker.go line 193): bytes written to the layer file and bytes fed to the
streaming digester. -/
structure MWState where
  fileBytes : List Nat
  digestBytes : List Nat
deriving DecidableEq

/-- One write through the fan-out writer: the chunk goes to both sinks. -/
def mwWrite (st : MWState) (chunk : List Nat) : MWState :=
  ⟨st.fileBytes ++ chunk, st.digestBytes ++ chunk⟩

/-- The tar copy loop of docker.go lines 198-229, parameterised by the tar
writer's header serialisation: the literal root marker `./` is skipped,
names are stripped of synthetic roots, entries whose names become empty are
skipped, and each surviving entry's header and body are written through the
fan-out writer.  Returns the final fan-out state and the entries written. -/
def scratchCopyLoop (encHeader : TarHeader → List Nat) :
    List TarEntry → MWState → MWState × List TarEntry
  | [], st => (st, [])
  | e :: rest, st =>
    if e.header.name = str "./" then scratchCopyLoop encHeader rest st
    else if (stripName e.header.name).length = 0 then scratchCopyLoop encHeader rest st
    else
      let e' : TarEntry := ⟨⟨stripName e.header.name, e.header.rest⟩, e.body⟩
      let res := scratchCopyLoop encHeader rest (mwWrite (mwWrite st (encHeader e'.header)) e.body)
      (res.1, e' :: res.2)

/-- Declarative survival test of the copy loop: the entry is neither the
root marker nor empty-named after stripping. -/
def survives (e : TarEntry) : Bool :=
  decide (e.header.name ≠ str "./" ∧ (stripName e.header.name).length ≠ 0)

/-- Declarative form of the per-entry normalisation: the name is stripped,
all other header fields and the body are unchanged. -/
def normalizeEntry (e : TarEntry) : TarEntry :=
  ⟨⟨stripName e.header.name, e.header.rest⟩, e.body⟩

theorem scratchCopyLoop_entries (encHeader : TarHeader → List Nat) (input : List TarEntry) :
    ∀ st : MWState, (scratchCopyLoop encHeader input st).2 =
      (input.filter survives).map normalizeEntry := by
  induction input with
  | nil => intro st; simp [scratchCopyLoop]
  | cons e rest ih =>
    intro st
    by_cases h1 : e.header.name = str "./"
    · have hpe : survives e = false := by simp [survives, h1]
      simp [scratchCopyLoop, h1, hpe, ih]
    · by_cases h2 : (stripName e.header.name).length = 0
      · have hpe : survives e = false := by simp [survives, h2]
        simp [scratchCopyLoop, h1, h2, hpe, ih]
      · have hpe : survives e = true := by simp [survives, h1, h2]
        simp [scratchCopyLoop, h1, h2, hpe, ih, normalizeEntry]

theorem scratchCopyLoop_digest (encHeader : TarHeader → List Nat) (input : List TarEntry) :
    ∀ st : MWState, st.digestBytes = st.fileBytes →
      (scratchCopyLoop encHeader input st).1.digestBytes =
        (scratchCopyLoop encHeader input st).1.fileBytes := by
  induction input with
  | nil => intro st h; simpa [scratchCopyLoop] using h
  | cons e rest ih =>
    intro st h
    by_cases h1 : e.header.name = str "./"
    · simp only [scratchCopyLoop, if_pos h1]
      exact ih st h
    · by_cases h2 : (stripName e.header.name).length = 0
      · simp only [scratchCopyLoop, if_neg h1, if_pos h2]
        exact ih st h
      · simp only [scratchCopyLoop, if_neg h1, if_neg h2]
        exact ih _ (by simp [mwWrite, h])

/-- C6: replaying the layer tar produced by the scratch copy loop yields
exactly the input entries with the literal root marker `./` skipped, a
leading `output/` or `source/` prefix stripped, empty-named entries
omitted, and each survivor's header and body otherwise unchanged; and the
bytes fed to the streaming digester are exactly the bytes written to the
layer file, so the recorded digest equals any independent hash of those
bytes. -/
theorem scratchLayer_roundtrip (encHeader : TarHeader → List Nat) (input : List TarEntry) :
    (scratchCopyLoop encHeader input ⟨[], []⟩).2 =
      (input.filter survives).map normalizeEntry
  ∧ (scratchCopyLoop encHeader input ⟨[], []⟩).1.digestBytes =
      (scratchCopyLoop encHeader input ⟨[], []⟩).1.fileBytes
  ∧ ∀ hash : List Nat → Str,
      hash (scratchCopyLoop encHeader input ⟨[], []⟩).1.digestBytes =
        hash (scratchCopyLoop encHeader input ⟨[], []⟩).1.fileBytes := by
  have hd := scratchCopyLoop_digest encHeader input ⟨[], []⟩ rfl
  exact ⟨scratchCopyLoop_entries encHeader input ⟨[], []⟩, hd, fun hash => by rw [hd]⟩

/- ### Per-tag tag-and-push loop (docker.go lines 888-968) -/

/-- Outcomes of the external calls made for one tag: whether the local
`TagImage` call fails, whether the `PushImage` transport call fails, and
the status records decoded from the bytes the push buffered. -/
structure TagOracle where
  tagErr : Str → Bool
  pushErr : Str → Bool
  stream : Str → List PushStatus

/-- Operations the loop starts, in order: tagging a tag, pushing a tag. -/
inductive PushEvent where
  | tagged (t : Str)
  | pushed (t : Str)
deriving DecidableEq

/-- Final outcome of `tagAndPush`, one constructor per return site of
docker.go lines 894-967. -/
inductive PushFinal where
  | success
  | tagFailed (t : Str)
  | pushFailed (t : Str)
  | protocolFailed (msg : Str)
  | unconfirmed
deriving DecidableEq

/-- The per-tag loop of `DockerPushStep.tagAndPush` (docker.go lines
894-967): for each tag in order, tag the image (failure returns 1); in
local mode skip the push; otherwise push (transport failure returns 1) and
classify the decoded status records — a protocol error or a missing aux
confirmation returns 1, confirmation moves to the next tag.  Returns the
exit code and outcome, plus the trace of operations started. -/
def tagAndPush (isLocal : Bool) (o : TagOracle) : List Str → (Int × PushFinal) × List PushEvent
  | [] => ((0, .success), [])
  | t :: rest =>
    if o.tagErr t then ((1, .tagFailed t), [.tagged t])
    else if isLocal then
      let res := tagAndPush isLocal o rest
      (res.1, .tagged t :: res.2)
    else if o.pushErr t then ((1, .pushFailed t), [.tagged t, .pushed t])
    else
      match classifyPushStatus t (o.stream t) with
      | .protocolError msg => ((1, .protocolFailed msg), [.tagged t, .pushed t])
      | .noConfirmation => ((1, .unconfirmed), [.tagged t, .pushed t])
      | .confirmed =>
        let res := tagAndPush isLocal o rest
        (res.1, .tagged t :: .pushed t :: res.2)

/-- A tag whose tagging, push transport and status verdict all succeed. -/
def tagSucceeds (o : TagOracle) (t : Str) : Prop :=
  o.tagErr t = false ∧ o.pushErr t = false ∧
    classifyPushStatus t (o.stream t) = .confirmed

/-- A tag with a fatal outcome: tag error, push transport error, or any
non-confirmed status verdict (protocol error or missing aux). -/
def tagFatal (o : TagOracle) (t : Str) : Prop :=
  o.tagErr t = true ∨ o.pushErr t = true ∨
    classifyPushStatus t (o.stream t) ≠ .confirmed

theorem tagAndPush_cons_success (o : TagOracle) (s : Str) (rest : List Str)
    (hs : tagSucceeds o s) :
    tagAndPush false o (s :: rest) =
      ((tagAndPush false o rest).1,
        PushEvent.tagged s :: PushEvent.pushed s :: (tagAndPush false o rest).2) := by
  obtain ⟨hs1, hs2, hs3⟩ := hs
  rw [tagAndPush, if_neg (by simp [hs1]), if_neg (by simp), if_neg (by simp [hs2]), hs3]

/-- C7: tags are processed strictly in order, and a fatal outcome on one
tag makes the publish return exit code 1 with a trace containing only the
operations of the earlier (successful) tags and of the fatal tag itself —
the tag operation and push of every later tag are never started. -/
theorem tagAndPush_sequential_abort (o : TagOracle) (pre : List Str) (t : Str)
    (post : List Str) (hpre : ∀ s ∈ pre, tagSucceeds o s) (ht : tagFatal o t) :
    (tagAndPush false o (pre ++ t :: post)).2 =
      pre.flatMap (fun s => [PushEvent.tagged s, PushEvent.pushed s]) ++
        (if o.tagErr t then [PushEvent.tagged t]
         else [PushEvent.tagged t, PushEvent.pushed t])
  ∧ (tagAndPush false o (pre ++ t :: post)).1.1 = 1 := by
  induction pre with
  | nil =>
    by_cases h1 : o.tagErr t
    · simp [tagAndPush, h1]
    · by_cases hp : o.pushErr t
      · simp [tagAndPush, h1, hp]
      · cases hc : classifyPushStatus t (o.stream t) with
        | protocolError msg => simp [tagAndPush, h1, hp, hc]
        | noConfirmation => simp [tagAndPush, h1, hp, hc]
        | confirmed =>
          rcases ht with ht | ht | ht
          · exact absurd ht h1
          · exact absurd ht hp
          · exact absurd hc ht
  | cons s pre' ih =>
    have hpre' : ∀ x ∈ pre', tagSucceeds o x :=
      fun x hx => hpre x (List.mem_cons_of_mem s hx)
    have hs : tagSucceeds o s := hpre s (List.mem_cons_self s pre')
    have ihr := ih hpre'
    have hstep := tagAndPush_cons_success o s (pre' ++ t :: post) hs
    rw [List.cons_append]
    constructor
    · rw [hstep]
      show PushEvent.tagged s :: PushEvent.pushed s ::
          (tagAndPush false o (pre' ++ t :: post)).2 = _
      rw [ihr.1, List.flatMap_cons]
      simp
    · rw [hstep]
      exact ihr.2

/-- A concrete oracle on which pushing tag `a` hits a protocol error. -/
def sampleTagOracle : TagOracle :=
  ⟨fun _ => false, fun _ => false,
   fun t => if t == str "a" then [statusErrRecord] else [statusAuxRecord]⟩

theorem tagAndPush_sequential_abort_witness :
    (tagAndPush false sampleTagOracle [str "a", str "b"]).2 =
      [PushEvent.tagged (str "a"), PushEvent.pushed (str "a")]
  ∧ (tagAndPush false sampleTagOracle [str "a", str "b"]).1.1 = 1 := by
  have h := tagAndPush_sequential_abort sampleTagOracle [] (str "a") [str "b"]
    (by intro s hs; cases hs) (Or.inr (Or.inr (by decide)))
  simpa using h

/- ### Scratch push execution and cleanup (docker.go lines 168-405) -/

/-- Success or failure of each fallible call made by
`DockerScratchPushStep.Execute`, listed in source order (docker.go lines
174-404); `authCheck` is the combined `check && err == nil` outcome of the
access check, and `tagAndPushCode` the exit code of the final
`tagAndPush` call. -/
structure ScratchExecOracle where
  collectArtifact : Bool
  openArtifact : Bool
  openLayerFile : Bool
  copyLoop : Bool
  marshalJSON : Bool
  mkdirAll : Bool
  rename : Bool
  openVersionFile : Bool
  writeVersionFile : Bool
  syncVersionFile : Bool
  openJSONFile : Bool
  writeJSONFile : Bool
  syncJSONFile : Bool
  openRepositoriesFile : Bool
  writeRepositoriesFile : Bool
  syncRepositoriesFile : Bool
  createImageFile : Bool
  tarPath : Bool
  newDockerClient : Bool
  authCheck : Bool
  openLoadFile : Bool
  emitter : Bool
  loadImage : Bool
  tagAndPushCode : Int
deriving DecidableEq

/-- Observable outcome of one scratch-push execution: the exit code,
whether the scratch directory tree was created (`os.MkdirAll`, docker.go
line 273), and whether it was removed before returning (the deferred
`os.RemoveAll`, docker.go line 284). -/
structure ScratchRun where
  exitCode : Int
  scratchCreated : Bool
  scratchRemoved : Bool
deriving DecidableEq

/-- `DockerScratchPushStep.Execute` (docker.go lines 168-405) as a chain of
fallible steps in source order.  The scratch tree exists from a successful
`MkdirAll` (line 273) onward; the deferred `RemoveAll` of the scratch tree
is only registered after the `Rename` of the layer file succeeds (lines
280-284), so the rename-failure return leaves the tree in place, while
every later return runs the deferred removal.  A failed `MkdirAll` is
modelled as not having created the tree. -/
def DockerScratchPushExecute (isLocal : Bool) (o : ScratchExecOracle) : ScratchRun :=
  if o.collectArtifact = false then ⟨-1, false, false⟩
  else if o.openArtifact = false then ⟨-1, false, false⟩
  else if o.openLayerFile = false then ⟨-1, false, false⟩
  else if o.copyLoop = false then ⟨-1, false, false⟩
  else if o.marshalJSON = false then ⟨-1, false, false⟩
  else if o.mkdirAll = false then ⟨-1, false, false⟩
  else if o.rename = false then ⟨-1, true, false⟩
  else if o.openVersionFile = false then ⟨-1, true, true⟩
  else if o.writeVersionFile = false then ⟨-1, true, true⟩
  else if o.syncVersionFile = false then ⟨-1, true, true⟩
  else if o.openJSONFile = false then ⟨-1, true, true⟩
  else if o.writeJSONFile = false then ⟨-1, true, true⟩
  else if o.syncJSONFile = false then ⟨-1, true, true⟩
  else if o.openRepositoriesFile = false then ⟨-1, true, true⟩
  else if o.writeRepositoriesFile = false then ⟨-1, true, true⟩
  else if o.syncRepositoriesFile = false then ⟨-1, true, true⟩
  else if o.createImageFile = false then ⟨-1, true, true⟩
  else if o.tarPath = false then ⟨-1, true, true⟩
  else if o.newDockerClient = false then ⟨1, true, true⟩
  else if isLocal = false ∧ o.authCheck = false then ⟨-1, true, true⟩
  else if o.openLoadFile = false then ⟨-1, true, true⟩
  else if o.emitter = false then ⟨1, true, true⟩
  else if o.loadImage = false then ⟨1, true, true⟩
  else ⟨o.tagAndPushCode, true, true⟩

/-- The all-successful oracle, used as a base for concrete runs. -/
def happyScratchOracle : ScratchExecOracle :=
  ⟨true, true, true, true, true, true, true, true, true, true, true, true,
   true, true, true, true, true, true, true, true, true, true, true, 0⟩

/-- The oracle on which the `os.Rename` of the layer file fails. -/
def renameFailOracle : ScratchExecOracle :=
  { happyScratchOracle with rename := false }

/-- The oracle on which the `LoadImage` call fails (after the deferred
removal has been registered). -/
def loadFailOracle : ScratchExecOracle :=
  { happyScratchOracle with loadImage := false }

/-- C3 counterexample: when the rename of the digested layer file into the
scratch tree fails (docker.go line 280), the step returns an error with the
scratch directory already created but never removed — the deferred
`RemoveAll` is only registered after the rename, so scratch-directory
cleanup is not unconditional over all error paths. -/
theorem scratchCleanup_counterexample :
    (DockerScratchPushExecute false renameFailOracle).scratchCreated = true
  ∧ (DockerScratchPushExecute false renameFailOracle).scratchRemoved = false
  ∧ (DockerScratchPushExecute false renameFailOracle).exitCode = -1 := by
  exact ⟨rfl, rfl, rfl⟩

set_option maxHeartbeats 1600000 in
/-- C3 amended: on every execution whose rename of the layer file into the
scratch tree succeeds (the point where the deferred removal is registered),
the scratch directory tree is removed before the call returns, whichever
later error path is taken; the error returns before that point (mkdir or
rename failure) are the only ones that can leave the tree behind. -/
theorem scratchCleanup_amended (isLocal : Bool) (o : ScratchExecOracle)
    (hc : (DockerScratchPushExecute isLocal o).scratchCreated = true)
    (hr : o.rename = true) :
    (DockerScratchPushExecute isLocal o).scratchRemoved = true := by
  unfold DockerScratchPushExecute at hc ⊢
  by_cases h1 : o.collectArtifact = false
  · rw [if_pos h1] at hc; simp at hc
  rw [if_neg h1] at hc ⊢
  by_cases h2 : o.openArtifact = false
  · rw [if_pos h2] at hc; simp at hc
  rw [if_neg h2] at hc ⊢
  by_cases h3 : o.openLayerFile = false
  · rw [if_pos h3] at hc; simp at hc
  rw [if_neg h3] at hc ⊢
  by_cases h4 : o.copyLoop = false
  · rw [if_pos h4] at hc; simp at hc
  rw [if_neg h4] at hc ⊢
  by_cases h5 : o.marshalJSON = false
  · rw [if_pos h5] at hc; simp at hc
  rw [if_neg h5] at hc ⊢
  by_cases h6 : o.mkdirAll = false
  · rw [if_pos h6] at hc; simp at hc
  rw [if_neg h6] at hc ⊢
  have h7 : ¬(o.rename = false) := by simp [hr]
  rw [if_neg h7]
  simp [apply_ite ScratchRun.scratchRemoved]

theorem scratchCleanup_amended_witness :
    (DockerScratchPushExecute false loadFailOracle).scratchRemoved = true :=
  scratchCleanup_amended false loadFailOracle rfl rfl

/- ### Image config construction (docker.go lines 231-253) -/

/-- Go slice expression `s[:n]`: defined when `n ≤ len(s)`, an out-of-range
bound panics (embedded as `none`). -/
def goSliceTo (s : Str) (n : Nat) : Option Str :=
  if n ≤ s.length then some (s.take n) else none

/-- The container-identity fragment of the scratch image config (docker.go
lines 231-253): `config.Hostname` and `ContainerConfig.Hostname` are both
`containerID[:16]`, `Container` is the full id. -/
structure ScratchImageConfigModel where
  hostname : Str
  container : Str
  containerConfigHostname : Str
deriving DecidableEq

/-- Building the scratch image config: both hostname fields slice the
container id to 16 characters unconditionally, so the build panics
(`none`) on a shorter id. -/
def buildScratchImageConfig (containerID : Str) : Option ScratchImageConfigModel :=
  (goSliceTo containerID 16).map (fun h => ⟨h, containerID, h⟩)

/-- C9: the scratch-push config build slices the container id as
`containerID[:16]` unconditionally, so it is total exactly when the id has
at least 16 characters; any shorter id panics (out-of-range slice) instead
of returning an error. -/
theorem scratchConfig_slice_precondition (cid : Str) :
    (16 ≤ cid.length →
      buildScratchImageConfig cid = some ⟨cid.take 16, cid, cid.take 16⟩)
  ∧ (cid.length < 16 → buildScratchImageConfig cid = none) := by
  constructor
  · intro h
    rw [buildScratchImageConfig, goSliceTo, if_pos h]
    rfl
  · intro h
    rw [buildScratchImageConfig, goSliceTo, if_neg (by omega)]
    rfl

theorem scratchConfig_slice_precondition_witness :
    buildScratchImageConfig (str "0123456789abcdefX") =
      some ⟨str "0123456789abcdef", str "0123456789abcdefX", str "0123456789abcdef"⟩
  ∧ buildScratchImageConfig (str "short") = none := by
  constructor
  · rw [(scratchConfig_slice_precondition (str "0123456789abcdefX")).1 (by decide)]
    decide
  · exact (scratchConfig_slice_precondition (str "short")).2 (by decide)

/- ### OciStore.StoreFromFile (ocistore.go lines 38-80) -/

/-- External world of the OCI object-store upload: whether the object-store
client construction succeeds, the `os.Stat` result per path (`some size`
when the path is stat-able), whether `os.Open` succeeds per path, and
whether the `PutObject` call succeeds. -/
structure OciWorld where
  newClientOk : Bool
  stat : Str → Option Nat
  openOk : Str → Bool
  putObjectOk : Bool

/-- Outcome of a `StoreFromFile` call: a nil-dereference panic, an error
return, or success. -/
inductive OciResult where
  | panicked
  | errored
  | ok
deriving DecidableEq

/-- `OciStore.StoreFromFile` (ocistore.go lines 38-80): the `MaxTries`
default is applied (and never used again); client-construction failure
returns an error; the `os.Stat` error is discarded and `fileInfo.Size()`
is called unconditionally, so a failed stat dereferences a nil `FileInfo`
(a panic) before the open-file error return is ever reached. -/
def StoreFromFile (w : OciWorld) (path : Str) (maxTries : Nat) : OciResult :=
  let _adjustedMaxTries := if maxTries = 0 then 1 else maxTries
  if w.newClientOk = false then .errored
  else
    match w.stat path with
    | none => .panicked
    | some _ =>
      if w.openOk path = false then .errored
      else if w.putObjectOk = false then .errored
      else .ok

/-- C10: `StoreFromFile` is total only when the path is stat-able — a
failed `os.Stat` panics on the nil `FileInfo` instead of reaching the
open-file error return, while a stat-able path never panics. -/
theorem StoreFromFile_stat_precondition (w : OciWorld) (path : Str) (n : Nat)
    (hclient : w.newClientOk = true) :
    (w.stat path = none → StoreFromFile w path n = .panicked)
  ∧ (∀ sz, w.stat path = some sz → StoreFromFile w path n ≠ .panicked) := by
  constructor
  · intro hs
    simp [StoreFromFile, hclient, hs]
  · intro sz hs
    by_cases ho : w.openOk path = false
    · simp [StoreFromFile, hclient, hs, ho]
    · by_cases hput : w.putObjectOk = false <;>
        simp [StoreFromFile, hclient, hs, ho, hput]

/-- A world in which no path is stat-able. -/
def ociWorldMissing : OciWorld := ⟨true, fun _ => none, fun _ => true, true⟩

/-- A world in which every path stats to a 5-byte file. -/
def ociWorldPresent : OciWorld := ⟨true, fun _ => some 5, fun _ => true, true⟩

theorem StoreFromFile_stat_precondition_witness :
    StoreFromFile ociWorldMissing (str "file.tar") 0 = .panicked
  ∧ StoreFromFile ociWorldPresent (str "file.tar") 0 ≠ .panicked := by
  constructor
  · exact (StoreFromFile_stat_precondition ociWorldMissing (str "file.tar") 0 rfl).1 rfl
  · exact (StoreFromFile_stat_precondition ociWorldPresent (str "file.tar") 0 rfl).2 5 rfl

end Wercker
